import Mathlib

/-!
Verification of the magic-four-squared core against its specification.

The development shallowly embeds the two algorithmic modules of the
repository:

* `src/cli/modules/MagicSquareFinder.js` — the 4×4 word-square search
  (`findMagicSquares`, `shuffleArray`, `buildMagicSquare`,
  `findWordsStartingWith`, `isValidMagicSquare`, `validate`);
* `src/client/src/modules/GameStateManager.js` — the per-letter feedback
  (`generateFeedback`) and the full-grid comparison (`validateFullGrid`).

JavaScript strings standing for 4-letter words are embedded as `List Char`;
a JS `Set` of words is embedded as an insertion-order deduplicated list
(`mkWordSet`), matching `new Set(words)` plus iteration order of
`Array.from`.  `Math.random()`-driven choices are made explicit as a
function `rand : Nat → Nat`; the JS expression
`Math.floor(Math.random() * (i + 1))`, whose value ranges over `0..i`, is
embedded as `rand i % (i + 1)`.

Out-of-range JS index reads (which yield `undefined`) are represented with
`List.getD` defaults; every theorem below only exercises the embedding on
inputs (4-letter words, 4×4 grids) on which no such read occurs, matching
the repository's word-list loader contract.
-/

namespace MagicFour

/-- A word is a list of characters (a JS string viewed per-character). -/
abbrev Word := List Char

/-- A magic-square result object: `{ grid, words }` as produced by
`buildMagicSquare` or supplied to `validate`. -/
structure Square where
  grid : List (List Char)
  words : List Word
deriving DecidableEq, Repr

/-- `new Set(words)` with `Array.from` iteration order: keep the first
occurrence of each word, in input order. -/
def mkWordSet (words : List Word) : List Word :=
  words.foldl (fun acc w => if w ∈ acc then acc else acc ++ [w]) []

/-- `MagicSquareFinder.findWordsStartingWith(char, wordSet)`:
`Array.from(wordSet).filter(word => word[0] === char)`. -/
def findWordsStartingWith (c : Char) (wordSet : List Word) : List Word :=
  wordSet.filter (fun w => w.head? == some c)

/-- Read `grid[i][j]`.  All uses in the theorems below are on 4×4 grids,
so the defaults are never consulted. -/
def gridCell (grid : List (List Char)) (i j : Nat) : Char :=
  (grid.getD i []).getD j ' '

/-- `grid[i].join('')`, the `i`-th row read as a word. -/
def rowWord (grid : List (List Char)) (i : Nat) : Word :=
  grid.getD i []

/-- `grid.map(row => row[j]).join('')`, the `j`-th column read as a word. -/
def colWord (grid : List (List Char)) (j : Nat) : Word :=
  grid.map (fun row => row.getD j ' ')

/-- `MagicSquareFinder.isValidMagicSquare(grid, wordSet)`: symmetry, then
row membership, then row-word uniqueness (`new Set(words).size === 4`),
then column membership. -/
def isValidMagicSquare (grid : List (List Char)) (wordSet : List Word) : Bool :=
  ((List.range 4).all fun i => (List.range 4).all fun j =>
      gridCell grid i j == gridCell grid j i)
  && ((List.range 4).all fun i => wordSet.contains (rowWord grid i))
  && (((List.range 4).map (rowWord grid)).dedup.length == 4)
  && ((List.range 4).all fun j => wordSet.contains (colWord grid j))

/-- The row produced by `for (j = 0; j < 4; j++) grid[r][j] = word[j]`. -/
def buildRow (w : Word) : List Char :=
  (List.range 4).map fun j => w.getD j ' '

/-- A `for (const x of l) { ... if hit return r; }` loop that may return
early: first `some` result wins, `none` means the loop fell through. -/
def tryEach : List α → (α → Option β) → Option β
  | [], _ => none
  | a :: rest, f =>
    match f a with
    | some b => some b
    | none => tryEach rest f

/-- `MagicSquareFinder.buildMagicSquare(firstWord, wordSet)`: the three
nested candidate loops with their `continue` prefix checks (each grid row
`r` holds `buildRow` of the word placed there), gated by
`isValidMagicSquare` before a square is returned. -/
def buildMagicSquare (firstWord : Word) (wordSet : List Word) : Option Square :=
  tryEach (findWordsStartingWith (firstWord.getD 1 ' ') wordSet) fun word2 =>
    if (buildRow word2).getD 0 ' ' ≠ firstWord.getD 1 ' ' then none else
    tryEach (findWordsStartingWith (firstWord.getD 2 ' ') wordSet) fun word3 =>
      if (buildRow word3).getD 0 ' ' ≠ firstWord.getD 2 ' ' then none else
      if (buildRow word3).getD 1 ' ' ≠ word2.getD 2 ' ' then none else
      tryEach (findWordsStartingWith (firstWord.getD 3 ' ') wordSet) fun word4 =>
        if isValidMagicSquare
            [buildRow firstWord, buildRow word2, buildRow word3, buildRow word4]
            wordSet then
          some { grid := [buildRow firstWord, buildRow word2,
                          buildRow word3, buildRow word4],
                 words := [firstWord, word2, word3, word4] }
        else none

/-- One Fisher–Yates swap `[a[i], a[j]] = [a[j], a[i]]`.  Both indices are
in range whenever the shuffle performs it; out-of-range reads cannot occur
and are mapped to the identity. -/
def listSwap (l : List α) (i j : Nat) : List α :=
  match l.get? i, l.get? j with
  | some a, some b => (l.set i b).set j a
  | _, _ => l

/-- The `for (let i = length - 1; i > 0; i--)` Fisher–Yates loop of
`shuffleArray`, counting `i` down to 1. -/
def fyLoop (rand : Nat → Nat) : Nat → List α → List α
  | 0, l => l
  | i + 1, l => fyLoop rand i (listSwap l (i + 1) (rand (i + 1) % (i + 2)))

/-- `MagicSquareFinder.shuffleArray(array)`: copy the array, then run the
Fisher–Yates loop on the copy. -/
def shuffleArray (rand : Nat → Nat) (array : List α) : List α :=
  fyLoop rand (array.length - 1) array

/-- The `for` loop of `findMagicSquares`: walk the shuffled words while
`results.length < maxResults`, pushing each square that gets built. -/
def findLoop (wordSet : List Word) (maxResults : Nat) :
    List Word → List Square → List Square
  | [], results => results
  | w :: rest, results =>
    if results.length < maxResults then
      match buildMagicSquare w wordSet with
      | some square => findLoop wordSet maxResults rest (results ++ [square])
      | none => findLoop wordSet maxResults rest results
    else results

/-- `MagicSquareFinder.findMagicSquares(words, maxResults)`.  The word set
is built from the caller's list; the iteration order is the shuffled copy. -/
def findMagicSquares (words : List Word) (maxResults : Nat)
    (rand : Nat → Nat) : List Square :=
  findLoop (mkWordSet words) maxResults (shuffleArray rand words) []

/-- Result object of `MagicSquareFinder.validate`. -/
structure ValidationResult where
  valid : Bool
  errors : List String
deriving DecidableEq, Repr

/-- The symmetry section of `validate`: for each row index, either the row
is missing/not 4 long (one error, `continue`), or each asymmetric cell is
reported. -/
def symmetryErrors (grid : List (List Char)) : List String :=
  (List.range 4).flatMap fun i =>
    match grid.get? i with
    | none => ["Row " ++ toString i ++ " must have 4 characters"]
    | some row =>
      if row.length ≠ 4 then ["Row " ++ toString i ++ " must have 4 characters"]
      else (List.range 4).filterMap fun j =>
        if gridCell grid i j ≠ gridCell grid j i then
          some ("Grid is not symmetric at [" ++ toString i ++ "][" ++ toString j ++ "]")
        else none

/-- `MagicSquareFinder.validate(square)` on a well-typed square object
(the dynamic `typeof`/`Array.isArray` guards cannot fire).  Errors are
accumulated in source order: grid row count, per-row shape and symmetry,
words count, word uniqueness; `valid` is `errors.length === 0`. -/
def validate (square : Square) : ValidationResult :=
  let errors :=
    (if square.grid.length ≠ 4 then ["Grid must have 4 rows"] else [])
    ++ symmetryErrors square.grid
    ++ (if square.words.length ≠ 4 then ["Square must have exactly 4 words"]
        else if square.words.dedup.length ≠ 4 then
          ["All words must be unique (found duplicates)"]
        else [])
  { valid := errors.isEmpty, errors := errors }

/-! ### Mutation-explicit forms

To talk about what `shuffleArray` and `findMagicSquares` do to the array
object the caller passed in, the JS heap is made explicit: the state
carries the caller's array alongside the function's locals, and each
assignment statement of the source updates the component it writes.
`shuffleArray` writes only `shuffled` (`const shuffled = [...array]`
copies), and `findMagicSquares` writes only `results` and the locals
(`const shuffledWords = this.shuffleArray([...words])` copies); neither
contains an assignment to an element of its argument. -/

/-- Heap state during `shuffleArray`: the caller's `array` object and the
local `shuffled` copy. -/
structure ShuffleState (α : Type _) where
  arg : List α
  shuffled : List α
deriving Repr

/-- The Fisher–Yates loop with the caller's array threaded through: every
iteration writes `shuffled[i]`/`shuffled[j]` only. -/
def shuffleRunLoop (rand : Nat → Nat) : Nat → ShuffleState α → ShuffleState α
  | 0, st => st
  | i + 1, st =>
    shuffleRunLoop rand i
      { st with shuffled := listSwap st.shuffled (i + 1) (rand (i + 1) % (i + 2)) }

/-- `shuffleArray` with the caller's array kept in the state. -/
def shuffleArrayRun (rand : Nat → Nat) (array : List α) : ShuffleState α :=
  shuffleRunLoop rand (array.length - 1) { arg := array, shuffled := array }

/-- Heap state during `findMagicSquares`: the caller's `words` array and
the local `results`. -/
structure FinderState where
  words : List Word
  results : List Square
deriving Repr

/-- The search loop with the caller's array threaded through: every
iteration writes `results` only. -/
def findLoopRun (wordSet : List Word) (maxResults : Nat) :
    List Word → FinderState → FinderState
  | [], st => st
  | w :: rest, st =>
    if st.results.length < maxResults then
      match buildMagicSquare w wordSet with
      | some square =>
        findLoopRun wordSet maxResults rest
          { st with results := st.results ++ [square] }
      | none => findLoopRun wordSet maxResults rest st
    else st

/-- `findMagicSquares` with the caller's array kept in the state. -/
def findMagicSquaresRun (words : List Word) (maxResults : Nat)
    (rand : Nat → Nat) : FinderState :=
  findLoopRun (mkWordSet words) maxResults (shuffleArray rand words)
    { words := words, results := [] }

/-! ### Concrete inputs used by the spec's scenarios -/

def wABLE : Word := ['A', 'B', 'L', 'E']

def wBARE : Word := ['B', 'A', 'R', 'E']

def wLREA : Word := ['L', 'R', 'E', 'A']

def wEEAR : Word := ['E', 'E', 'A', 'R']

/-- Scenario A word list: `{ABLE, BARE, LREA, EEAR}`. -/
def wordsA : List Word := [wABLE, wBARE, wLREA, wEEAR]

/-- Scenario B word list: `{AAAA, BBBB, CCCC, DDDD}`. -/
def wordsB : List Word :=
  [['A', 'A', 'A', 'A'], ['B', 'B', 'B', 'B'],
   ['C', 'C', 'C', 'C'], ['D', 'D', 'D', 'D']]

/-- The square the search builds from first word `ABLE` over `wordsA`. -/
def sqA : Square :=
  { grid := [['A', 'B', 'L', 'E'], ['B', 'A', 'R', 'E'],
             ['L', 'R', 'E', 'A'], ['E', 'E', 'A', 'R']],
    words := [wABLE, wBARE, wLREA, wEEAR] }

/-- A square carrying `sqA`'s grid but a repeated word in its word list. -/
def sqDup : Square :=
  { grid := [['A', 'B', 'L', 'E'], ['B', 'A', 'R', 'E'],
             ['L', 'R', 'E', 'A'], ['E', 'E', 'A', 'R']],
    words := [wABLE, wABLE, wLREA, wEEAR] }

/-- A square whose grid is symmetric and whose four distinct row words are
members of no interesting word set (rows `ABCD`, `BCDE`, `CDEF`, `DEFG`). -/
def sqNonMember : Square :=
  { grid := [['A', 'B', 'C', 'D'], ['B', 'C', 'D', 'E'],
             ['C', 'D', 'E', 'F'], ['D', 'E', 'F', 'G']],
    words := [['A', 'B', 'C', 'D'], ['B', 'C', 'D', 'E'],
              ['C', 'D', 'E', 'F'], ['D', 'E', 'F', 'G']] }

end MagicFour


namespace GameState

/-- Cell status strings used by `GameStateManager`: `'correct'`,
`'wrong-position'`, `'incorrect'`, and `'empty'` (word mode only). -/
inductive Status where
  | correct
  | wrongPosition
  | incorrect
  | empty
deriving DecidableEq, Repr

/-- One element of the array returned by `generateFeedback`:
`{ char, status }`.  `char` is `none` for the `''` padding cells. -/
structure FeedbackCell where
  char : Option Char
  status : Status
deriving DecidableEq, Repr

/-- The loop body of `generateFeedback` for a present guess character:
`guessChar === answerChars[i]` (false when `answerChars[i]` is out of
range, i.e. `undefined`), then `answerChars.includes(guessChar)` — plain
membership, no answer position is ever consumed. -/
def feedbackCell (answerChars : List Char) (i : Nat) (c : Char) : FeedbackCell :=
  if answerChars.get? i = some c then { char := some c, status := .correct }
  else if c ∈ answerChars then { char := some c, status := .wrongPosition }
  else { char := some c, status := .incorrect }

/-- `GameStateManager.generateFeedback(guess, answer)`.  `guessChars` is
the split guess padded with `''` (here `none`) up to length 4; the loop
runs over positions `0..3` only, so longer guesses are truncated. -/
def generateFeedback (guess answer : List Char) : List FeedbackCell :=
  let answerChars := answer
  let guessChars : List (Option Char) :=
    guess.map some ++ List.replicate (4 - guess.length) none
  (List.range 4).map fun i =>
    match guessChars.getD i none with
    | none => { char := none, status := .empty }
    | some c => feedbackCell answerChars i c

/-- Number of feedback cells carrying character `v` that are flagged
`correct` or `wrong-position`. -/
def flaggedCount (v : Char) (feedback : List FeedbackCell) : Nat :=
  feedback.countP fun cell =>
    cell.char == some v &&
      (cell.status == Status.correct || cell.status == Status.wrongPosition)

/-- One element of the `feedback` array of `validateFullGrid`. -/
structure GridFeedbackCell where
  row : Fin 4
  col : Fin 4
  correct : Bool
  status : Status
  playerLetter : Char
  correctLetter : Char
deriving DecidableEq, Repr

/-- The status computed for cell `(r, c)` by `validateFullGrid`.  `norm`
stands for `x => RTLSupport.normalizeText(x.toUpperCase(), language)`,
applied by the source to every letter before any comparison
(`RTLSupport.normalizeText` itself is not part of the sources, so it is
kept abstract).  `rowLetters`/`colLetters` are the normalized solution
row and column, and the wrong-position test is `includes` on them. -/
def cellStatus (norm : Char → Char) (playerGrid solutionGrid : Fin 4 → Fin 4 → Char)
    (r c : Fin 4) : Status :=
  let p := norm (playerGrid r c)
  let s := norm (solutionGrid r c)
  if p = s then .correct
  else
    let rowLetters := (List.finRange 4).map fun j => norm (solutionGrid r j)
    let colLetters := (List.finRange 4).map fun i => norm (solutionGrid i c)
    if p ∈ rowLetters ∨ p ∈ colLetters then .wrongPosition else .incorrect

/-- The `{ correct, feedback }` part of the object returned by
`GameStateManager.validateFullGrid` (the attempt counter and game-over
bookkeeping are state updates outside these claims).  `allCorrect` starts
true and is cleared exactly in the branch where the normalized letters
differ, so it equals "every cell matches". -/
structure GridValidationResult where
  correct : Bool
  feedback : List GridFeedbackCell
deriving DecidableEq, Repr

def validateFullGrid (norm : Char → Char)
    (playerGrid solutionGrid : Fin 4 → Fin 4 → Char) : GridValidationResult :=
  { correct := (List.finRange 4).all fun r => (List.finRange 4).all fun c =>
      norm (playerGrid r c) == norm (solutionGrid r c),
    feedback := (List.finRange 4).flatMap fun r => (List.finRange 4).map fun c =>
      { row := r, col := c,
        correct := cellStatus norm playerGrid solutionGrid r c == Status.correct,
        status := cellStatus norm playerGrid solutionGrid r c,
        playerLetter := norm (playerGrid r c),
        correctLetter := norm (solutionGrid r c) } }

/-- A guess with a repeated letter, against an answer holding that letter
once. -/
def guessAAAA : List Char := ['A', 'A', 'A', 'A']

def answerABCD : List Char := ['A', 'B', 'C', 'D']

/-- A guess shorter than the answer (length 2 versus 4). -/
def guessAB : List Char := ['A', 'B']

/-- A concrete fully filled player grid (all `'A'`). -/
def playerGridW : Fin 4 → Fin 4 → Char := fun _ _ => 'A'

/-- A concrete solution grid: `'A'` at the corner, `'B'` elsewhere. -/
def solutionGridW : Fin 4 → Fin 4 → Char := fun r c =>
  if r = 0 ∧ c = 0 then 'A' else 'B'

end GameState

namespace MagicFour

/-! ### Basic facts about the embedding -/

theorem mem_foldl_insert (x : Word) :
    ∀ (l acc : List Word),
      (x ∈ l.foldl (fun acc w => if w ∈ acc then acc else acc ++ [w]) acc ↔
        x ∈ acc ∨ x ∈ l)
  | [], acc => by simp
  | w :: t, acc => by
    rw [List.foldl_cons, mem_foldl_insert x t]
    by_cases hw : w ∈ acc
    · simp only [if_pos hw, List.mem_cons]
      constructor
      · rintro (h | h)
        · exact Or.inl h
        · exact Or.inr (Or.inr h)
      · rintro (h | rfl | h)
        · exact Or.inl h
        · exact Or.inl hw
        · exact Or.inr h
    · simp only [if_neg hw, List.mem_append, List.mem_singleton, List.mem_cons]
      tauto

theorem mem_mkWordSet {x : Word} {words : List Word} :
    x ∈ mkWordSet words ↔ x ∈ words := by
  have h := mem_foldl_insert x words []
  simpa [mkWordSet] using h

theorem tryEach_eq_some {f : α → Option β} {b : β} :
    ∀ {l : List α}, tryEach l f = some b → ∃ a ∈ l, f a = some b
  | [], h => by simp [tryEach] at h
  | a :: rest, h => by
    cases hfa : f a with
    | some b' =>
      simp only [tryEach, hfa] at h
      exact ⟨a, by simp, by rw [hfa, h]⟩
    | none =>
      simp only [tryEach, hfa] at h
      obtain ⟨a', ha', hfa'⟩ := tryEach_eq_some h
      exact ⟨a', by simp [ha'], hfa'⟩

theorem buildRow_length (w : Word) : (buildRow w).length = 4 := by
  simp [buildRow]

theorem buildRow_of_length {w : Word} (h : w.length = 4) : buildRow w = w := by
  match w, h with
  | [a, b, c, d], _ => rfl

/-- The shape of every square `buildMagicSquare` can return, together with
the final `isValidMagicSquare` acceptance gate. -/
theorem buildMagicSquare_eq_some {firstWord : Word} {wordSet : List Word}
    {sq : Square} (h : buildMagicSquare firstWord wordSet = some sq) :
    ∃ w2 w3 w4,
      sq.grid = [buildRow firstWord, buildRow w2, buildRow w3, buildRow w4] ∧
      sq.words = [firstWord, w2, w3, w4] ∧
      isValidMagicSquare sq.grid wordSet = true := by
  obtain ⟨w2, _, h2⟩ := tryEach_eq_some h
  rw [ite_eq_iff] at h2
  rcases h2 with ⟨-, h2⟩ | ⟨-, h2⟩
  · cases h2
  obtain ⟨w3, _, h3⟩ := tryEach_eq_some h2
  rw [ite_eq_iff] at h3
  rcases h3 with ⟨-, h3⟩ | ⟨-, h3⟩
  · cases h3
  rw [ite_eq_iff] at h3
  rcases h3 with ⟨-, h3⟩ | ⟨-, h3⟩
  · cases h3
  obtain ⟨w4, _, h4⟩ := tryEach_eq_some h3
  rw [ite_eq_iff] at h4
  rcases h4 with ⟨hv, h4⟩ | ⟨-, h4⟩
  · cases h4
    exact ⟨w2, w3, w4, rfl, rfl, hv⟩
  · cases h4

theorem isValid_components {grid : List (List Char)} {wordSet : List Word}
    (h : isValidMagicSquare grid wordSet = true) :
    (∀ i < 4, ∀ j < 4, gridCell grid i j = gridCell grid j i) ∧
    (∀ i < 4, rowWord grid i ∈ wordSet) ∧
    ((List.range 4).map (rowWord grid)).Nodup ∧
    (∀ j < 4, colWord grid j ∈ wordSet) := by
  rw [isValidMagicSquare] at h
  simp only [Bool.and_eq_true, List.all_eq_true, List.mem_range, beq_iff_eq,
    decide_eq_true_eq] at h
  obtain ⟨⟨⟨hsym, hrows⟩, hdedup⟩, hcols⟩ := h
  refine ⟨hsym, fun i hi => List.elem_iff.mp (hrows i hi), ?_,
    fun j hj => List.elem_iff.mp (hcols j hj)⟩
  have hlen : ((List.range 4).map (rowWord grid)).length = 4 := by simp
  have := List.Sublist.eq_of_length
    (List.dedup_sublist ((List.range 4).map (rowWord grid)))
    (by rw [hdedup, hlen])
  exact List.dedup_eq_self.mp this

/-! ### Facts about the search loop -/

theorem findLoop_mem {wordSet : List Word} {m : Nat} :
    ∀ {l : List Word} {res : List Square} {sq : Square},
      sq ∈ findLoop wordSet m l res →
      sq ∈ res ∨ ∃ w ∈ l, buildMagicSquare w wordSet = some sq
  | [], res, sq, h => Or.inl h
  | w :: rest, res, sq, h => by
    rw [findLoop] at h
    split at h
    · cases hb : buildMagicSquare w wordSet with
      | some square =>
        rw [hb] at h
        rcases findLoop_mem h with hr | ⟨w', hw', hb'⟩
        · rcases List.mem_append.mp hr with hr | hr
          · exact Or.inl hr
          · exact Or.inr ⟨w, by simp, by rw [hb, List.mem_singleton.mp hr]⟩
        · exact Or.inr ⟨w', by simp [hw'], hb'⟩
      | none =>
        rw [hb] at h
        rcases findLoop_mem h with hr | ⟨w', hw', hb'⟩
        · exact Or.inl hr
        · exact Or.inr ⟨w', by simp [hw'], hb'⟩
    · exact Or.inl h

theorem findLoop_all_none {wordSet : List Word} {m : Nat} :
    ∀ {l : List Word} {res : List Square},
      (∀ w ∈ l, buildMagicSquare w wordSet = none) →
      findLoop wordSet m l res = res
  | [], res, _ => rfl
  | w :: rest, res, h => by
    rw [findLoop]
    split
    · rw [h w (by simp)]
      exact findLoop_all_none fun w' hw' => h w' (by simp [hw'])
    · rfl

theorem mem_findLoop_of_mem {wordSet : List Word} {m : Nat} :
    ∀ {l : List Word} {res : List Square} {sq : Square},
      sq ∈ res → sq ∈ findLoop wordSet m l res
  | [], res, sq, h => h
  | w :: rest, res, sq, h => by
    rw [findLoop]
    split
    · cases hb : buildMagicSquare w wordSet with
      | some square => exact mem_findLoop_of_mem (by simp [h])
      | none => exact mem_findLoop_of_mem h
    · exact h

theorem findLoop_skip {wordSet : List Word} {m : Nat} (hm : 0 < m) :
    ∀ {l₁ rest : List Word},
      (∀ w ∈ l₁, buildMagicSquare w wordSet = none) →
      findLoop wordSet m (l₁ ++ rest) [] = findLoop wordSet m rest []
  | [], rest, _ => rfl
  | w :: t, rest, h => by
    rw [List.cons_append, findLoop, if_pos (by simpa using hm),
      h w (by simp)]
    exact findLoop_skip hm fun w' hw' => h w' (by simp [hw'])

theorem findLoop_length {wordSet : List Word} {m : Nat} :
    ∀ {l : List Word} {res : List Square},
      res.length ≤ m → (findLoop wordSet m l res).length ≤ m
  | [], res, h => h
  | w :: rest, res, h => by
    rw [findLoop]
    split
    · cases hb : buildMagicSquare w wordSet with
      | some square =>
        exact findLoop_length (by simp; omega)
      | none => exact findLoop_length h
    · exact h

/-! ### The Fisher–Yates shuffle permutes its input -/

theorem set_get?_self : ∀ {l : List α} {i : Nat} {a : α},
    l.get? i = some a → l.set i a = l
  | [], i, a, h => by simp at h
  | x :: t, 0, a, h => by simp at h; simp [h]
  | x :: t, i + 1, a, h => by
    simp only [List.get?_cons_succ] at h
    simp [List.set_cons_succ, set_get?_self h]

theorem cons_set_perm : ∀ (t : List α) (k : Nat) (a b : α),
    t.get? k = some b → List.Perm (b :: t.set k a) (a :: t)
  | [], k, a, b, h => by simp at h
  | x :: t, 0, a, b, h => by
    simp only [List.get?_cons_zero, Option.some_inj] at h
    subst h
    exact List.Perm.swap a x t
  | x :: t, k + 1, a, b, h => by
    simp only [List.get?_cons_succ] at h
    have h0 : (x :: t).set (k + 1) a = x :: t.set k a := rfl
    rw [h0]
    have h1 : List.Perm (b :: x :: t.set k a) (x :: b :: t.set k a) :=
      List.Perm.swap x b _
    have h2 : List.Perm (x :: b :: t.set k a) (x :: a :: t) :=
      (cons_set_perm t k a b h).cons x
    have h3 : List.Perm (x :: a :: t) (a :: x :: t) := List.Perm.swap a x t
    exact (h1.trans h2).trans h3

theorem swap_perm_lt : ∀ (l : List α) (i j : Nat) (a b : α), i < j →
    l.get? i = some a → l.get? j = some b →
    List.Perm ((l.set i b).set j a) l
  | [], i, j, a, b, _, hi, _ => by simp at hi
  | x :: t, 0, j + 1, a, b, _, hi, hj => by
    simp only [List.get?_cons_zero, Option.some_inj] at hi
    simp only [List.get?_cons_succ] at hj
    subst hi
    simpa using cons_set_perm t j x b hj
  | x :: t, i + 1, j + 1, a, b, hij, hi, hj => by
    simp only [List.get?_cons_succ] at hi hj
    simpa using (swap_perm_lt t i j a b (by omega) hi hj).cons x

theorem listSwap_perm (l : List α) (i j : Nat) :
    List.Perm (listSwap l i j) l := by
  rw [listSwap]
  cases hi : l.get? i with
  | none => exact List.Perm.refl l
  | some a =>
    cases hj : l.get? j with
    | none => exact List.Perm.refl l
    | some b =>
      show List.Perm ((l.set i b).set j a) l
      rcases Nat.lt_trichotomy i j with hlt | heq | hgt
      · exact swap_perm_lt l i j a b hlt hi hj
      · subst heq
        rw [hi] at hj
        cases hj
        rw [List.set_set, set_get?_self hi]
      · rw [List.set_comm b a l (by omega)]
        exact swap_perm_lt l j i b a hgt hj hi

theorem fyLoop_perm (rand : Nat → Nat) :
    ∀ (n : Nat) (l : List α), List.Perm (fyLoop rand n l) l
  | 0, l => List.Perm.refl l
  | n + 1, l =>
    (fyLoop_perm rand n _).trans
      (listSwap_perm l (n + 1) (rand (n + 1) % (n + 2)))

theorem shuffleArray_perm (rand : Nat → Nat) (l : List α) :
    List.Perm (shuffleArray rand l) l :=
  fyLoop_perm rand (l.length - 1) l

/-! ### The mutation-explicit forms leave the caller's array untouched -/

theorem shuffleRunLoop_spec (rand : Nat → Nat) :
    ∀ (n : Nat) (st : ShuffleState α),
      shuffleRunLoop rand n st =
        { arg := st.arg, shuffled := fyLoop rand n st.shuffled }
  | 0, st => rfl
  | n + 1, st => by
    rw [shuffleRunLoop, shuffleRunLoop_spec rand n, fyLoop]

theorem findLoopRun_spec (wordSet : List Word) (maxResults : Nat) :
    ∀ (l : List Word) (st : FinderState),
      findLoopRun wordSet maxResults l st =
        { words := st.words,
          results := findLoop wordSet maxResults l st.results }
  | [], st => rfl
  | w :: rest, st => by
    rw [findLoopRun, findLoop]
    split
    · cases hb : buildMagicSquare w wordSet with
      | some square =>
        simpa using findLoopRun_spec wordSet maxResults rest
          { st with results := st.results ++ [square] }
      | none => simpa using findLoopRun_spec wordSet maxResults rest st
    · rfl

/-! ### Characterizing `validate` -/

theorem symmetryErrors_eq_nil_iff {grid : List (List Char)}
    (h4 : grid.length = 4) (hrow : ∀ row ∈ grid, row.length = 4) :
    symmetryErrors grid = [] ↔
      ∀ i < 4, ∀ j < 4, gridCell grid i j = gridCell grid j i := by
  have hget : ∀ i, i < 4 → ∃ row, grid.get? i = some row ∧ row.length = 4 := by
    intro i hi
    cases hgi : grid.get? i with
    | none =>
      rw [List.get?_eq_none] at hgi
      omega
    | some row =>
      exact ⟨row, rfl, hrow row (List.get?_mem hgi)⟩
  rw [symmetryErrors, List.flatMap_eq_nil_iff]
  constructor
  · intro h i hi j hj
    have hbody := h i (List.mem_range.mpr hi)
    obtain ⟨row, hgi, hlen⟩ := hget i hi
    rw [hgi] at hbody
    simp only [hlen, ne_eq, not_true_eq_false, if_false, ite_not] at hbody
    rw [List.filterMap_eq_nil_iff] at hbody
    have := hbody j (List.mem_range.mpr hj)
    by_contra hne
    rw [if_neg hne] at this
    cases this
  · intro h i hi
    have hi4 : i < 4 := List.mem_range.mp hi
    obtain ⟨row, hgi, hlen⟩ := hget i hi4
    rw [hgi]
    simp only [hlen, ne_eq, not_true_eq_false, if_false, ite_not]
    rw [List.filterMap_eq_nil_iff]
    intro j hj
    rw [if_pos (h i hi4 j (List.mem_range.mp hj))]

theorem dedup_length_eq_iff {l : List Word} (h : l.length = 4) :
    l.dedup.length = 4 ↔ l.Nodup := by
  constructor
  · intro hd
    exact List.dedup_eq_self.mp
      (List.Sublist.eq_of_length (List.dedup_sublist l) (by rw [hd, h]))
  · intro hn
    rw [List.dedup_eq_self.mpr hn, h]

/-! ## Claims about the square search -/

/-- C1: for every input word list, every `maxResults`, and every random
stream driving the shuffle, every square returned by `findMagicSquares`
passes all four acceptance rules: its grid is symmetric
(`grid[i][j] == grid[j][i]`), each of its four rows read as a word belongs
to the input word list, the four row words are pairwise distinct (nodup),
and each of its four columns read as a word belongs to the input word
list. -/
theorem found_squares_pass_all_acceptance_rules
    (words : List Word) (maxResults : Nat) (rand : Nat → Nat) (sq : Square)
    (hsq : sq ∈ findMagicSquares words maxResults rand) :
    (∀ i < 4, ∀ j < 4, gridCell sq.grid i j = gridCell sq.grid j i) ∧
    (∀ i < 4, rowWord sq.grid i ∈ words) ∧
    [rowWord sq.grid 0, rowWord sq.grid 1,
      rowWord sq.grid 2, rowWord sq.grid 3].Nodup ∧
    (∀ j < 4, colWord sq.grid j ∈ words) := by
  rcases findLoop_mem hsq with h | ⟨w, hw, hb⟩
  · simp at h
  · obtain ⟨w2, w3, w4, hg, hwds, hvalid⟩ := buildMagicSquare_eq_some hb
    obtain ⟨hsym, hrows, hnd, hcols⟩ := isValid_components hvalid
    refine ⟨hsym, fun i hi => mem_mkWordSet.mp (hrows i hi), ?_,
      fun j hj => mem_mkWordSet.mp (hcols j hj)⟩
    have hlist : (List.range 4).map (rowWord sq.grid) =
        [rowWord sq.grid 0, rowWord sq.grid 1,
          rowWord sq.grid 2, rowWord sq.grid 3] := rfl
    rwa [hlist] at hnd

/-- C1 witness: the theorem applied to the square found on the Scenario A
word list, with the membership hypothesis discharged by evaluation. -/
theorem found_squares_pass_all_acceptance_rules_witness :
    (∀ i < 4, ∀ j < 4, gridCell sqA.grid i j = gridCell sqA.grid j i) ∧
    (∀ i < 4, rowWord sqA.grid i ∈ wordsA) ∧
    [rowWord sqA.grid 0, rowWord sqA.grid 1,
      rowWord sqA.grid 2, rowWord sqA.grid 3].Nodup ∧
    (∀ j < 4, colWord sqA.grid j ∈ wordsA) :=
  found_squares_pass_all_acceptance_rules wordsA 1 (fun _ => 0) sqA (by decide)

/-- C6: `findMagicSquares` always returns normally (it is a total
function) with at most `maxResults` squares, and when no first word can be
completed into a square it returns the empty list — an expected outcome,
not an error. -/
theorem findMagicSquares_total_and_bounded
    (words : List Word) (maxResults : Nat) (rand : Nat → Nat) :
    (findMagicSquares words maxResults rand).length ≤ maxResults ∧
    ((∀ w ∈ words, buildMagicSquare w (mkWordSet words) = none) →
      findMagicSquares words maxResults rand = []) := by
  constructor
  · exact findLoop_length (Nat.zero_le maxResults)
  · intro h
    exact findLoop_all_none fun w hw =>
      h w ((shuffleArray_perm rand words).mem_iff.mp hw)

/-- C6 witness: on the Scenario B list no word completes, and the search
returns the empty list within the bound. -/
theorem findMagicSquares_total_and_bounded_witness :
    (findMagicSquares wordsB 10 (fun _ => 1)).length ≤ 10 ∧
    findMagicSquares wordsB 10 (fun _ => 1) = [] :=
  ⟨(findMagicSquares_total_and_bounded wordsB 10 (fun _ => 1)).1,
    (findMagicSquares_total_and_bounded wordsB 10 (fun _ => 1)).2 (by decide)⟩

/-- C7: on the word list `{AAAA, BBBB, CCCC, DDDD}` the search returns the
empty list for every `maxResults` and every random stream driving the
shuffle (hence for every permutation the shuffle can produce). -/
theorem findMagicSquares_wordsB_empty (maxResults : Nat) (rand : Nat → Nat) :
    findMagicSquares wordsB maxResults rand = [] := by
  apply findLoop_all_none
  intro w hw
  have hwB : w ∈ wordsB := (shuffleArray_perm rand wordsB).mem_iff.mp hw
  simp only [wordsB, List.mem_cons, List.not_mem_nil, or_false] at hwB
  rcases hwB with rfl | rfl | rfl | rfl <;> decide

/-- C10: neither `findMagicSquares` nor `shuffleArray` mutates the array
the caller passed in: in the mutation-explicit embedding the caller's
array component is returned unchanged, the shuffle's output is a fresh
list that is a permutation of the argument, and the threaded search
computes exactly `findMagicSquares`. -/
theorem search_and_shuffle_do_not_mutate_input
    (rand : Nat → Nat) (arr : List Word) (maxResults : Nat) :
    (shuffleArrayRun rand arr).arg = arr ∧
    List.Perm (shuffleArrayRun rand arr).shuffled arr ∧
    (findMagicSquaresRun arr maxResults rand).words = arr ∧
    (findMagicSquaresRun arr maxResults rand).results =
      findMagicSquares arr maxResults rand := by
  refine ⟨?_, ?_, ?_, ?_⟩
  · rw [shuffleArrayRun, shuffleRunLoop_spec]
  · rw [shuffleArrayRun, shuffleRunLoop_spec]
    exact fyLoop_perm rand (arr.length - 1) arr
  · rw [findMagicSquaresRun, findLoopRun_spec]
  · rw [findMagicSquaresRun, findLoopRun_spec, findMagicSquares]

/-- C8: on the word list `{ABLE, BARE, LREA, EEAR}`, for every random
stream driving the shuffle (hence every permutation it can produce) and
every `maxResults ≥ 1`, the search returns at least one square whose word
set is exactly `{ABLE, BARE, LREA, EEAR}` and whose grid is symmetric. -/
theorem scenarioA_always_finds_the_square (rand : Nat → Nat)
    (maxResults : Nat) (hm : 1 ≤ maxResults) :
    ∃ sq ∈ findMagicSquares wordsA maxResults rand,
      (∀ w : Word, w ∈ sq.words ↔ w ∈ wordsA) ∧
      (∀ i < 4, ∀ j < 4, gridCell sq.grid i j = gridCell sq.grid j i) := by
  have hperm := shuffleArray_perm rand wordsA
  have hmem : wABLE ∈ shuffleArray rand wordsA :=
    hperm.mem_iff.mpr (by simp [wordsA])
  obtain ⟨l₁, l₂, hsplit⟩ := List.append_of_mem hmem
  have hnd : (shuffleArray rand wordsA).Nodup :=
    hperm.symm.nodup (by decide)
  have hnotmem : wABLE ∉ l₁ := by
    rw [hsplit] at hnd
    exact fun hin => List.disjoint_of_nodup_append hnd hin (by simp)
  have hforall : ∀ w ∈ l₁, buildMagicSquare w (mkWordSet wordsA) = none := by
    intro w hw
    have hwA : w ∈ wordsA := hperm.mem_iff.mp
      (by rw [hsplit]; exact List.mem_append.mpr (Or.inl hw))
    have hwne : w ≠ wABLE := fun h => hnotmem (h ▸ hw)
    simp only [wordsA, List.mem_cons, List.not_mem_nil, or_false] at hwA
    rcases hwA with rfl | rfl | rfl | rfl
    · exact absurd rfl hwne
    · decide
    · decide
    · decide
  refine ⟨sqA, ?_, fun w => Iff.rfl, by decide⟩
  show sqA ∈ findMagicSquares wordsA maxResults rand
  rw [findMagicSquares, hsplit, findLoop_skip (by omega) hforall, findLoop]
  rw [if_pos (by simpa using hm)]
  rw [show buildMagicSquare wABLE (mkWordSet wordsA) = some sqA from by decide]
  exact mem_findLoop_of_mem (by simp)

/-- C8 witness: the theorem applied to a concrete random stream and
`maxResults = 1`. -/
theorem scenarioA_always_finds_the_square_witness :
    ∃ sq ∈ findMagicSquares wordsA 1 (fun _ => 0),
      (∀ w : Word, w ∈ sq.words ↔ w ∈ wordsA) ∧
      (∀ i < 4, ∀ j < 4, gridCell sq.grid i j = gridCell sq.grid j i) :=
  scenarioA_always_finds_the_square (fun _ => 0) 1 (by decide)

/-- C9: re-validating any square returned by `findMagicSquares` with the
structured validator yields `valid = true` and an empty violation list. -/
theorem revalidate_found_square_yields_no_violations
    (words : List Word) (maxResults : Nat) (rand : Nat → Nat) (sq : Square)
    (hsq : sq ∈ findMagicSquares words maxResults rand) :
    validate sq = { valid := true, errors := [] } := by
  rcases findLoop_mem hsq with h | ⟨w, hw, hb⟩
  · simp at h
  · obtain ⟨w2, w3, w4, hg, hwds, hvalid⟩ := buildMagicSquare_eq_some hb
    obtain ⟨hsym, -, hnd, -⟩ := isValid_components hvalid
    have h4 : sq.grid.length = 4 := by rw [hg]; rfl
    have hrows4 : ∀ row ∈ sq.grid, row.length = 4 := by
      intro row hr
      rw [hg] at hr
      simp only [List.mem_cons, List.not_mem_nil, or_false] at hr
      rcases hr with rfl | rfl | rfl | rfl <;> exact buildRow_length _
    have hsymNil : symmetryErrors sq.grid = [] :=
      (symmetryErrors_eq_nil_iff h4 hrows4).mpr hsym
    have hwnd : sq.words.Nodup := by
      have hmap : (List.range 4).map (rowWord sq.grid) =
          List.map buildRow [w, w2, w3, w4] := by rw [hg]; rfl
      rw [hmap] at hnd
      rw [hwds]
      exact List.Nodup.of_map buildRow hnd
    have hwlen : sq.words.length = 4 := by rw [hwds]; rfl
    have hdl : sq.words.dedup.length = 4 := (dedup_length_eq_iff hwlen).mpr hwnd
    rw [validate, hsymNil]
    simp [h4, hwlen, hdl]

/-- C9 witness: the theorem applied to the square found on the Scenario A
word list, with the membership hypothesis discharged by evaluation. -/
theorem revalidate_found_square_yields_no_violations_witness :
    validate sqA = { valid := true, errors := [] } :=
  revalidate_found_square_yields_no_violations wordsA 1 (fun _ => 0) sqA
    (by decide)

/-- C5 counterexample: `validate` has no word-set argument and performs no
membership check.  This square has a symmetric grid whose four distinct
row words are not members of the Scenario A word list — the boolean form
`isValidMagicSquare` rejects it, yet the structured validator reports
`valid` with zero violations instead of reporting the membership
failures. -/
theorem validate_skips_membership_counterexample :
    (∀ i < 4, ∀ j < 4,
      gridCell sqNonMember.grid i j = gridCell sqNonMember.grid j i) ∧
    (∀ i < 4, rowWord sqNonMember.grid i ∉ wordsA) ∧
    isValidMagicSquare sqNonMember.grid (mkWordSet wordsA) = false ∧
    validate sqNonMember = { valid := true, errors := [] } := by
  decide

/-- C5 amended: on a fully populated 4×4 square, `validate` runs only the
shape, symmetry, word-count and word-uniqueness checks — it takes no word
set and performs no row or column membership check — and `valid` holds
exactly when grid symmetry and word-list shape and uniqueness all pass;
when the four words contain a repeat, the uniqueness violation is
reported. -/
theorem validate_checks_shape_symmetry_uniqueness_only
    (sq : Square) (h4 : sq.grid.length = 4)
    (hrow : ∀ row ∈ sq.grid, row.length = 4) :
    ((validate sq).valid = true ↔
      ((∀ i < 4, ∀ j < 4, gridCell sq.grid i j = gridCell sq.grid j i) ∧
        sq.words.length = 4 ∧ sq.words.Nodup)) ∧
    (sq.words.length = 4 → ¬ sq.words.Nodup →
      "All words must be unique (found duplicates)" ∈ (validate sq).errors) := by
  constructor
  · rw [validate]
    by_cases hw4 : sq.words.length = 4
    · by_cases hnd : sq.words.Nodup
      · have hdl : sq.words.dedup.length = 4 := (dedup_length_eq_iff hw4).mpr hnd
        simp [h4, hw4, hdl, hnd, List.isEmpty_iff,
          symmetryErrors_eq_nil_iff h4 hrow]
      · have hdl : sq.words.dedup.length ≠ 4 :=
          fun h => hnd ((dedup_length_eq_iff hw4).mp h)
        simp [h4, hw4, hdl, hnd, List.isEmpty_iff]
    · simp [h4, hw4, List.isEmpty_iff]
  · intro hw4 hnd
    have hdl : sq.words.dedup.length ≠ 4 :=
      fun h => hnd ((dedup_length_eq_iff hw4).mp h)
    rw [validate]
    simp [hw4, hdl]

/-- C5 amended witness: the theorem applied to a concrete square with a
repeated word, discharging the shape hypotheses by evaluation. -/
theorem validate_checks_shape_symmetry_uniqueness_only_witness :
    ((validate sqDup).valid = true ↔
      ((∀ i < 4, ∀ j < 4,
          gridCell sqDup.grid i j = gridCell sqDup.grid j i) ∧
        sqDup.words.length = 4 ∧ sqDup.words.Nodup)) ∧
    (sqDup.words.length = 4 → ¬ sqDup.words.Nodup →
      "All words must be unique (found duplicates)" ∈ (validate sqDup).errors) :=
  validate_checks_shape_symmetry_uniqueness_only sqDup (by decide) (by decide)

end MagicFour

namespace GameState

/-! ## Claims about the feedback engines -/

theorem flag_cell_iff (v g : Char) (ans : List Char) (i : Nat) :
    (((feedbackCell ans i g).char == some v &&
      ((feedbackCell ans i g).status == Status.correct ||
        (feedbackCell ans i g).status == Status.wrongPosition)) = true) ↔
    (g = v ∧ g ∈ ans) := by
  rw [feedbackCell]
  split_ifs with h1 h2
  · have hmem : g ∈ ans := List.get?_mem h1
    simp [hmem]
  · simp [h2]
  · simp [h2]

/-- C2 counterexample: with `guess = "AAAA"` and `answer = "ABCD"` (both
of length 4), the feedback flags all four `A` cells correct or
wrong-position, although the answer holds a single `A` — the code uses a
plain `includes` with no consumed-position accounting, so the claimed
multiset bound fails. -/
theorem duplicate_letter_bound_counterexample :
    guessAAAA.length = 4 ∧ answerABCD.length = 4 ∧
    flaggedCount 'A' (generateFeedback guessAAAA answerABCD) = 4 ∧
    answerABCD.count 'A' = 1 ∧
    ¬ (flaggedCount 'A' (generateFeedback guessAAAA answerABCD) ≤
        answerABCD.count 'A') := by
  decide

/-- C2 amended: for equal-length-4 guess and answer and any letter `v`,
the number of cells with character `v` flagged correct-or-wrong-position
equals the number of occurrences of `v` in the guess when `v` occurs in
the answer at all, and `0` otherwise — it is bounded by the guess's
multiplicity of `v`, not the answer's. -/
theorem flaggedCount_characterization (guess answer : List Char)
    (hg : guess.length = 4) (ha : answer.length = 4) (v : Char) :
    flaggedCount v (generateFeedback guess answer) =
      if v ∈ answer then guess.count v else 0 := by
  obtain ⟨g0, g1, g2, g3, rfl⟩ :
      ∃ g0 g1 g2 g3, guess = [g0, g1, g2, g3] := by
    match guess, hg with
    | [g0, g1, g2, g3], _ => exact ⟨g0, g1, g2, g3, rfl⟩
  obtain ⟨a0, a1, a2, a3, rfl⟩ :
      ∃ a0 a1 a2 a3, answer = [a0, a1, a2, a3] := by
    match answer, ha with
    | [a0, a1, a2, a3], _ => exact ⟨a0, a1, a2, a3, rfl⟩
  have hfb : generateFeedback [g0, g1, g2, g3] [a0, a1, a2, a3] =
      [feedbackCell [a0, a1, a2, a3] 0 g0,
       feedbackCell [a0, a1, a2, a3] 1 g1,
       feedbackCell [a0, a1, a2, a3] 2 g2,
       feedbackCell [a0, a1, a2, a3] 3 g3] := rfl
  rw [hfb]
  simp only [flaggedCount, List.countP_cons, List.countP_nil, flag_cell_iff]
  by_cases hv : v ∈ ([a0, a1, a2, a3] : List Char)
  · rw [if_pos hv]
    by_cases h0 : g0 = v <;> by_cases h1 : g1 = v <;>
      by_cases h2 : g2 = v <;> by_cases h3 : g3 = v <;>
      simp [h0, h1, h2, h3, hv, List.count_cons]
  · rw [if_neg hv]
    have h0 : ¬(g0 = v ∧ g0 ∈ ([a0, a1, a2, a3] : List Char)) :=
      fun h => hv (h.1 ▸ h.2)
    have h1 : ¬(g1 = v ∧ g1 ∈ ([a0, a1, a2, a3] : List Char)) :=
      fun h => hv (h.1 ▸ h.2)
    have h2 : ¬(g2 = v ∧ g2 ∈ ([a0, a1, a2, a3] : List Char)) :=
      fun h => hv (h.1 ▸ h.2)
    have h3 : ¬(g3 = v ∧ g3 ∈ ([a0, a1, a2, a3] : List Char)) :=
      fun h => hv (h.1 ▸ h.2)
    rw [if_neg h0, if_neg h1, if_neg h2, if_neg h3]

/-- C2 amended witness: the characterization applied to the spec's
duplicate-letter regression pair `guess = "ABBA"`, `answer = "BABA"`. -/
theorem flaggedCount_characterization_witness :
    flaggedCount 'A' (generateFeedback ['A', 'B', 'B', 'A'] ['B', 'A', 'B', 'A'])
      = if 'A' ∈ (['B', 'A', 'B', 'A'] : List Char)
        then List.count 'A' ['A', 'B', 'B', 'A'] else 0 :=
  flaggedCount_characterization ['A', 'B', 'B', 'A'] ['B', 'A', 'B', 'A']
    (by decide) (by decide) 'A'

/-- C3: on grids whose letters are already normalized (the data-model
invariant: uppercased, final forms folded — so `norm` fixes every letter
of both grids), each cell's status is `correct` exactly when the player
letter equals the solution letter, `wrong-position` exactly when they
differ but the player letter occurs elsewhere in the solution grid's row
`r` or column `c`, and `incorrect` otherwise; the returned `correct` flag
holds exactly when all 16 cells match. -/
theorem validateFullGrid_cell_rules (norm : Char → Char)
    (player sol : Fin 4 → Fin 4 → Char)
    (hp : ∀ r c, norm (player r c) = player r c)
    (hs : ∀ r c, norm (sol r c) = sol r c) :
    (∀ r c : Fin 4,
      (cellStatus norm player sol r c = Status.correct ↔
        player r c = sol r c) ∧
      (cellStatus norm player sol r c = Status.wrongPosition ↔
        (player r c ≠ sol r c ∧
          ((∃ j : Fin 4, j ≠ c ∧ sol r j = player r c) ∨
           (∃ i : Fin 4, i ≠ r ∧ sol i c = player r c)))) ∧
      (cellStatus norm player sol r c = Status.incorrect ↔
        (player r c ≠ sol r c ∧
          ¬((∃ j : Fin 4, j ≠ c ∧ sol r j = player r c) ∨
            (∃ i : Fin 4, i ≠ r ∧ sol i c = player r c))))) ∧
    ((validateFullGrid norm player sol).correct = true ↔
      ∀ r c : Fin 4, player r c = sol r c) := by
  constructor
  · intro r c
    simp only [cellStatus, hp, hs]
    by_cases heq : player r c = sol r c
    · rw [if_pos heq]
      refine ⟨iff_of_true rfl heq, iff_of_false (by simp) ?_,
        iff_of_false (by simp) ?_⟩
      · exact fun h => h.1 heq
      · exact fun h => h.1 heq
    · rw [if_neg heq]
      have hiff : ((player r c ∈ (List.finRange 4).map fun j => sol r j) ∨
            (player r c ∈ (List.finRange 4).map fun i => sol i c)) ↔
          ((∃ j : Fin 4, sol r j = player r c) ∨
           (∃ i : Fin 4, sol i c = player r c)) := by
        simp [List.mem_map]
      have helse : ((∃ j : Fin 4, sol r j = player r c) ∨
            (∃ i : Fin 4, sol i c = player r c)) ↔
          ((∃ j : Fin 4, j ≠ c ∧ sol r j = player r c) ∨
           (∃ i : Fin 4, i ≠ r ∧ sol i c = player r c)) := by
        constructor
        · rintro (⟨j, hj⟩ | ⟨i, hi⟩)
          · exact Or.inl ⟨j, fun hjc => heq (hjc ▸ hj).symm, hj⟩
          · exact Or.inr ⟨i, fun hir => heq (hir ▸ hi).symm, hi⟩
        · rintro (⟨j, -, hj⟩ | ⟨i, -, hi⟩)
          · exact Or.inl ⟨j, hj⟩
          · exact Or.inr ⟨i, hi⟩
      by_cases hP : (∃ j : Fin 4, sol r j = player r c) ∨
          (∃ i : Fin 4, sol i c = player r c)
      · rw [if_pos (hiff.mpr hP)]
        exact ⟨iff_of_false (by simp) heq,
          iff_of_true rfl ⟨heq, helse.mp hP⟩,
          iff_of_false (by simp) (fun h => h.2 (helse.mp hP))⟩
      · rw [if_neg (fun h => hP (hiff.mp h))]
        exact ⟨iff_of_false (by simp) heq,
          iff_of_false (by simp) (fun h => hP (helse.mpr h.2)),
          iff_of_true rfl ⟨heq, fun h => hP (helse.mpr h)⟩⟩
  · simp [validateFullGrid, List.all_eq_true, hp, hs]

/-- C3 witness: the theorem applied with the identity normalization to a
concrete fully filled grid pair. -/
theorem validateFullGrid_cell_rules_witness :
    (validateFullGrid id playerGridW solutionGridW).correct = true ↔
      ∀ r c : Fin 4, playerGridW r c = solutionGridW r c :=
  (validateFullGrid_cell_rules id playerGridW solutionGridW
    (fun _ _ => rfl) (fun _ _ => rfl)).2

/-- C4 counterexample: on a guess of length 2 against an answer of length
4, `generateFeedback` raises no `LengthMismatch` condition — it returns a
padded 4-cell sequence whose trailing two cells are `'empty'` (the source
even comments `// Pad guess if shorter`). -/
theorem length_mismatch_counterexample :
    guessAB.length ≠ answerABCD.length ∧
    generateFeedback guessAB answerABCD =
      [{ char := some 'A', status := Status.correct },
       { char := some 'B', status := Status.correct },
       { char := none, status := Status.empty },
       { char := none, status := Status.empty }] := by
  decide

theorem replicate_none_getD :
    ∀ (n k : Nat), (List.replicate n (none : Option Char)).getD k none = none
  | 0, _ => rfl
  | _ + 1, 0 => rfl
  | n + 1, k + 1 => replicate_none_getD n k

/-- C4 amended: `generateFeedback` never fails on mismatched lengths: for
every guess and answer it returns exactly 4 cells; cell `i` carries
exactly the guess character at `i` (so positions beyond the guess's
length are `''` padding cells with status `'empty'`, and guess characters
beyond position 3 are ignored), and for equal-length-4 inputs this is an
ordered sequence of exactly 4 character-carrying cells. -/
theorem generateFeedback_pads_and_truncates (guess answer : List Char) :
    (generateFeedback guess answer).length = 4 ∧
    (∀ i, i < 4 →
      ((generateFeedback guess answer).getD i
          { char := none, status := Status.empty }).char = guess.get? i ∧
      (((generateFeedback guess answer).getD i
          { char := none, status := Status.empty }).status = Status.empty ↔
        guess.length ≤ i)) := by
  constructor
  · simp [generateFeedback]
  · intro i hi
    have hcell : (generateFeedback guess answer).getD i
        { char := none, status := Status.empty } =
        (match (guess.map some ++
            List.replicate (4 - guess.length) none).getD i none with
         | none => ({ char := none, status := Status.empty } : FeedbackCell)
         | some c => feedbackCell answer i c) := by
      rw [generateFeedback]
      interval_cases i <;> rfl
    rw [hcell]
    by_cases hlen : i < guess.length
    · have hmaplen : i < (guess.map some).length := by simpa using hlen
      have hg : (guess.map some ++
          List.replicate (4 - guess.length) none).getD i none =
          some (guess.get ⟨i, hlen⟩) := by
        rw [List.getD_append _ _ _ _ hmaplen, List.getD_eq_getElem?_getD,
          List.getElem?_map, ← List.get?_eq_getElem?, List.get?_eq_get hlen]
        rfl
      rw [hg]
      constructor
      · show (feedbackCell answer i (guess.get ⟨i, hlen⟩)).char = guess.get? i
        rw [feedbackCell, List.get?_eq_get hlen]
        split_ifs <;> rfl
      · show (feedbackCell answer i (guess.get ⟨i, hlen⟩)).status =
            Status.empty ↔ guess.length ≤ i
        rw [feedbackCell]
        split_ifs <;> simp <;> omega
    · have hg : (guess.map some ++
          List.replicate (4 - guess.length) none).getD i none = none := by
        rw [List.getD_append_right _ _ _ _ (by simpa using Nat.le_of_not_lt hlen),
          replicate_none_getD]
      rw [hg]
      constructor
      · rw [List.get?_eq_none.mpr (Nat.le_of_not_lt hlen)]
      · simp [Nat.le_of_not_lt hlen]

/-- C4 amended witness: the theorem applied to the length-2 guess, with
the index hypothesis discharged at `i = 2` where the padding appears. -/
theorem generateFeedback_pads_and_truncates_witness :
    (generateFeedback guessAB answerABCD).length = 4 ∧
    (((generateFeedback guessAB answerABCD).getD 2
        { char := none, status := Status.empty }).status = Status.empty ↔
      guessAB.length ≤ 2) :=
  ⟨(generateFeedback_pads_and_truncates guessAB answerABCD).1,
    ((generateFeedback_pads_and_truncates guessAB answerABCD).2 2
      (by decide)).2⟩

end GameState
